import Mathlib

set_option autoImplicit false

namespace HotelScrape

/-! # Document model

A shallow embedding of the hotel-details scraper in `src/main.py`.  The
parsed HTML document (the BeautifulSoup object model) is a forest of
nodes; each node is an element (tag, attributes, children) or a bare text
node (a NavigableString).  `find` queries traverse the forest in document
(pre-order) order, exactly as BeautifulSoup's recursive `find`/`find_all`
do. -/

/-- A node of the parsed HTML document tree. -/
inductive Node where
  | text (s : String)
  | elem (tag : String) (attrs : List (String × String)) (children : List Node)
deriving Repr

/-- A parsed document: the forest of top-level nodes of the soup. -/
abbrev Doc := List Node

/-- Attribute list of a node (text nodes have none). -/
def attrsOf : Node → List (String × String)
  | Node.text _ => []
  | Node.elem _ a _ => a

/-- `tag.get(key)`: first value bound to `key` in the attribute list
(duplicate attributes: the first occurrence wins, as in html.parser). -/
def nodeAttr (n : Node) (key : String) : Option String :=
  (attrsOf n).lookup key

/-- `tag.get(key, default)`. -/
def nodeAttrD (n : Node) (key : String) (d : String) : String :=
  (nodeAttr n key).getD d

/-! ## Python string primitives (character-level models) -/

/-- The double-quote character. -/
def dq : Char := Char.ofNat 34

/-- Python `str.strip()` on a character list. -/
def stripChars (l : List Char) : List Char :=
  ((l.dropWhile Char.isWhitespace).reverse.dropWhile Char.isWhitespace).reverse

/-- Python `str.strip()`. -/
def pyStrip (s : String) : String := String.mk (stripChars s.toList)

/-- Python `pat in s` (contiguous substring test) on character lists. -/
def containsSub (l pat : List Char) : Bool :=
  match l with
  | [] => pat.isEmpty
  | _ :: rest => pat.isPrefixOf l || containsSub rest pat

/-- Python `pat in s` on strings. -/
def strContains (s pat : String) : Bool := containsSub s.toList pat.toList

/-- Left-to-right scanner behind `str.replace`: when `skip = k + 1` the
current character belongs to an occurrence already replaced and is
dropped; at `skip = 0` a fresh occurrence of `pat` is replaced by `rep`
and the remaining `pat.length - 1` matched characters are scheduled to be
skipped. -/
def replGo (pat rep : List Char) : Nat → List Char → List Char
  | _, [] => []
  | k + 1, _ :: rest => replGo pat rep k rest
  | 0, c :: rest =>
    if !pat.isEmpty && pat.isPrefixOf (c :: rest) then
      rep ++ replGo pat rep (pat.length - 1) rest
    else
      c :: replGo pat rep 0 rest

/-- Python `str.replace(pat, rep)`: replace every non-overlapping
occurrence, scanning left to right. -/
def replaceAll (pat rep : List Char) (l : List Char) : List Char :=
  replGo pat rep 0 l

/-- Python `str.replace(pat, rep)` on strings. -/
def pyReplace (s pat rep : String) : String :=
  String.mk (replaceAll pat.toList rep.toList s.toList)

/-! ## Document-tree queries (BeautifulSoup operations) -/

mutual
/-- `find` on one node: the node itself if it is a matching element,
else the first match among its descendants, in document (pre-order)
order. -/
def findN (p : Node → Bool) : Node → Option Node
  | Node.text _ => none
  | Node.elem t a c =>
    if p (Node.elem t a c) then some (Node.elem t a c) else findL p c

/-- `soup.find(...)` for element matches: first matching element of the
forest in document (pre-order) order. -/
def findL (p : Node → Bool) : List Node → Option Node
  | [] => none
  | n :: rest =>
    match findN p n with
    | some m => some m
    | none => findL p rest
end

mutual
/-- `find(string=...)` on one node: first text node in the subtree, in
document order, whose string satisfies `p`. -/
def findStrN (p : String → Bool) : Node → Option String
  | Node.text s => if p s then some s else none
  | Node.elem _ _ c => findStrL p c

/-- `soup.find(string=...)` over a forest. -/
def findStrL (p : String → Bool) : List Node → Option String
  | [] => none
  | n :: rest =>
    match findStrN p n with
    | some m => some m
    | none => findStrL p rest
end

mutual
/-- `find_all` on one node: matching elements of the subtree in document
order (descending into matches as well, as BeautifulSoup does). -/
def findAllN (p : Node → Bool) : Node → List Node
  | Node.text _ => []
  | Node.elem t a c =>
    (if p (Node.elem t a c) then [Node.elem t a c] else []) ++ findAllL p c

/-- `soup.find_all(...)` over a forest. -/
def findAllL (p : Node → Bool) : List Node → List Node
  | [] => []
  | n :: rest => findAllN p n ++ findAllL p rest
end

mutual
/-- All text-node strings below a node, in document order (the strings
`get_text` concatenates). -/
def textsN : Node → List String
  | Node.text s => [s]
  | Node.elem _ _ c => textsL c

/-- All text-node strings of a forest, in document order. -/
def textsL : List Node → List String
  | [] => []
  | n :: rest => textsN n ++ textsL rest
end

/-- `tag.get_text(separator=sep, strip=True)`: strip each descendant
string, drop the ones that become empty, join with `sep`. -/
def getTextSepStrip (sep : String) (n : Node) : String :=
  String.intercalate sep (((textsN n).map pyStrip).filter (fun s => s ≠ ""))

/-- `tag.text` (no stripping, empty separator). -/
def textProp (n : Node) : String := String.join (textsN n)

mutual
/-- `decompose()` of the first match within one node's subtree (the node
itself included): the surviving forest, plus whether a removal happened. -/
def rmFirstN (p : Node → Bool) : Node → (List Node × Bool)
  | Node.text s => ([Node.text s], false)
  | Node.elem t a c =>
    if p (Node.elem t a c) then ([], true)
    else
      let rc := rmFirstL p c
      ([Node.elem t a rc.1], rc.2)

/-- `tag.find(p).decompose()` over a forest: removes the first element
matching `p` in pre-order, if any.  Second component reports whether a
removal happened. -/
def rmFirstL (p : Node → Bool) : List Node → (List Node × Bool)
  | [] => ([], false)
  | n :: rest =>
    let rn := rmFirstN p n
    if rn.2 then (rn.1 ++ rest, true)
    else
      let rr := rmFirstL p rest
      (n :: rr.1, rr.2)
end

mutual
/-- Removal of every maximal matching subtree within one node. -/
def rmAllN (p : Node → Bool) : Node → List Node
  | Node.text s => [Node.text s]
  | Node.elem t a c =>
    if p (Node.elem t a c) then [] else [Node.elem t a (rmAllL p c)]

/-- `for x in tag.find_all(p): x.decompose()`: removes every maximal
subtree whose root matches `p` (decomposing a subtree detaches its own
matching descendants along with it). -/
def rmAllL (p : Node → Bool) : List Node → List Node
  | [] => []
  | n :: rest => rmAllN p n ++ rmAllL p rest
end

mutual
/-- In-place mutation of the first matching element within one node's
subtree: that element replaced by `f` of it. -/
def replFirstN (p : Node → Bool) (f : Node → Node) : Node → (Node × Bool)
  | Node.text s => (Node.text s, false)
  | Node.elem t a c =>
    if p (Node.elem t a c) then (f (Node.elem t a c), true)
    else
      let rc := replFirstL p f c
      (Node.elem t a rc.1, rc.2)

/-- In-place mutation of the first element matching `p` in a forest, in
pre-order.  Second component reports whether a replacement happened. -/
def replFirstL (p : Node → Bool) (f : Node → Node) : List Node → (List Node × Bool)
  | [] => ([], false)
  | n :: rest =>
    let rn := replFirstN p f n
    if rn.2 then (rn.1 :: rest, true)
    else
      let rr := replFirstL p f rest
      (n :: rr.1, rr.2)
end

/-! ## Element predicates used by the scraper (src/main.py) -/

/-- `soup.find("h1", {"id": "HEADING"})` matcher (line 36). -/
def isHeading : Node → Bool
  | Node.text _ => false
  | Node.elem t a _ => t = "h1" && (a.lookup "id" == some "HEADING")

/-- `h1_tag.find(attrs={"data-automation": "listingBadgeTooltip"})`
matcher (line 41). -/
def isBadge : Node → Bool
  | Node.text _ => false
  | Node.elem _ a _ => a.lookup "data-automation" == some "listingBadgeTooltip"

/-- `h1_tag.find_all("svg")` matcher (line 46). -/
def isSvg : Node → Bool
  | Node.text _ => false
  | Node.elem t _ _ => t = "svg"

/-- `soup.find(attrs={"data-automation": "aboutTabDescription"})`
matcher (line 56). -/
def isAboutTab : Node → Bool
  | Node.text _ => false
  | Node.elem _ a _ => a.lookup "data-automation" == some "aboutTabDescription"

/-- `soup.find("meta", {"name": "description"})` matcher (line 65). -/
def isMetaNameDesc : Node → Bool
  | Node.text _ => false
  | Node.elem t a _ => t = "meta" && (a.lookup "name" == some "description")

/-- `soup.find("meta", {"property": "og:description"})` matcher
(line 65). -/
def isMetaOgDesc : Node → Bool
  | Node.text _ => false
  | Node.elem t a _ => t = "meta" && (a.lookup "property" == some "og:description")

/-- `soup.find("a", href=re.compile(r"^tel:"))` matcher (line 72): an
anchor whose href attribute exists and starts with `tel:`. -/
def isTelAnchor : Node → Bool
  | Node.text _ => false
  | Node.elem t a _ =>
    t = "a" &&
      (match a.lookup "href" with
       | some h => "tel:".toList.isPrefixOf h.toList
       | none => false)

/-- Split a character list at spaces, keeping empty pieces (Python
`str.split(" ")`). -/
def spaceTokens : List Char → List (List Char)
  | [] => [[]]
  | c :: rest =>
    match spaceTokens rest with
    | [] => [[]]
    | t :: ts => if c = ' ' then [] :: t :: ts else (c :: t) :: ts

/-- `soup.find("span", {"class": "uwJeR"})` matcher (line 87):
BeautifulSoup treats `class` as multi-valued, so the filter matches when
`uwJeR` is one of the space-separated class tokens. -/
def isRatingSpan : Node → Bool
  | Node.text _ => false
  | Node.elem t a _ =>
    t = "span" &&
      (spaceTokens ((a.lookup "class").getD "").toList).contains "uwJeR".toList

/-- `soup.find(attrs={"data-automation": "bubbleReviewCount"})` matcher
(line 99). -/
def isReviewCount : Node → Bool
  | Node.text _ => false
  | Node.elem _ a _ => a.lookup "data-automation" == some "bubbleReviewCount"

/-- `soup.find_all("img")` matcher (line 112). -/
def isImg : Node → Bool
  | Node.text _ => false
  | Node.elem t _ _ => t = "img"

/-! ## Regex models -/

/-- The literal `"telephone":"` searched for by the regex
`re.search(r'"telephone":"([^"]+)"', ...)` (line 80). -/
def telKey : List Char := dq :: "telephone".toList ++ [dq, ':', dq]

/-- The capture group `([^"]+)` followed by a closing quote: the maximal
nonempty run of non-quote characters, provided it is terminated by a
quote. -/
def capVal (l : List Char) : Option (List Char) :=
  let run := l.takeWhile (fun c => c ≠ dq)
  if run = [] then none
  else
    match l.drop run.length with
    | [] => none
    | _ :: _ => some run

/-- `re.search(r'"telephone":"([^"]+)"', s)`: leftmost match, returning
the capture group. -/
def telSearch : List Char → Option String
  | [] => none
  | c :: rest =>
    if telKey.isPrefixOf (c :: rest) then
      match capVal ((c :: rest).drop telKey.length) with
      | some v => some (String.mk v)
      | none => telSearch rest
    else telSearch rest

/-- The literal tail of the pattern `\d\.\d of 5 bubbles` (line 90). -/
def bubblesTail : List Char := " of 5 bubbles".toList

/-- Does the pattern `\d\.\d of 5 bubbles` match at the head of `l`? -/
def bubblesAt : List Char → Bool
  | a :: '.' :: b :: rest => a.isDigit && b.isDigit && bubblesTail.isPrefixOf rest
  | _ => false

/-- `re.search(r"\d\.\d of 5 bubbles", s)` viewed as a test: does the
pattern match anywhere in `l`? -/
def bubblesIn : List Char → Bool
  | [] => false
  | c :: rest => bubblesAt (c :: rest) || bubblesIn rest

/-- A character matched by `[\d,]` (line 105). -/
def isNumChar (c : Char) : Bool := c.isDigit || c = ','

/-- `re.search(r'([\d,]+)', s)`: the leftmost maximal run of digit-or-comma
characters, if any. -/
def firstNumRun : List Char → Option (List Char)
  | [] => none
  | c :: rest =>
    if isNumChar c then some (c :: rest.takeWhile isNumChar) else firstNumRun rest

/-- The size-class letters of `/media/photo-[sflmt]/` (line 126). -/
def sizeLetter (c : Char) : Bool :=
  c = 's' || c = 'f' || c = 'l' || c = 'm' || c = 't'

/-- The 13-character literal prefix `/media/photo-` of the substitution
pattern. -/
def photoPre : List Char := "/media/photo-".toList

/-- Does `re.sub`'s pattern `/media/photo-[sflmt]/` match at the head of
`l`? -/
def isPhotoAt (l : List Char) : Bool :=
  photoPre.isPrefixOf l &&
    (match l.drop 13 with
     | c :: d :: _ => sizeLetter c && d = '/'
     | _ => false)

/-- Left-to-right scanner behind the substitution: when `skip = k + 1`
the current character belongs to the occurrence just replaced and is
dropped; at `skip = 0` a fresh 15-character occurrence of the pattern is
replaced by `/media/photo-w/` and its remaining 14 characters are
scheduled to be skipped. -/
def rewriteGo : Nat → List Char → List Char
  | _, [] => []
  | k + 1, _ :: rest => rewriteGo k rest
  | 0, c :: rest =>
    if isPhotoAt (c :: rest) then
      "/media/photo-w/".toList ++ rewriteGo 14 rest
    else c :: rewriteGo 0 rest

/-- `re.sub(r'/media/photo-[sflmt]/', '/media/photo-w/', s)`: replace
every non-overlapping occurrence, scanning left to right (a match is 15
characters long). -/
def rewriteChars (l : List Char) : List Char := rewriteGo 0 l

/-- The high-resolution rewrite on strings (line 126). -/
def rewriteStr (s : String) : String := String.mk (rewriteChars s.toList)

/-- Lines 129-130: `if "?" in url: url = url.split("?")[0]`. -/
def stripQuery (s : String) : String :=
  if strContains s "?" then String.mk (s.toList.takeWhile (fun c => c ≠ '?')) else s

/-! ## Field extractors (src/main.py lines 34-137) -/

/-- Lines 39-47: destroy the first `listingBadgeTooltip` descendant of the
heading, then every `svg` descendant. -/
def cleanH1 : Node → Node
  | Node.text s => Node.text s
  | Node.elem t a c => Node.elem t a (rmAllL isSvg (rmFirstL isBadge c).1)

/-- Lines 34-50: hotel name.  Returns the (destructively cleaned) document
together with the extracted name, because `decompose` mutates the shared
soup that the remaining extractors query. -/
def extractName (doc : Doc) : Doc × String :=
  match findL isHeading doc with
  | none => (doc, "N/A")
  | some h =>
    ((replFirstL isHeading cleanH1 doc).1, getTextSepStrip "" (cleanH1 h))

/-- Lines 59-61: the tier-1 description drawn from the about container:
space-joined stripped text, with every "Read more" removed, stripped
again. -/
def aboutText (t : Node) : String :=
  pyStrip (pyReplace (getTextSepStrip " " t) "Read more" "")

/-- Line 65: `soup.find("meta", {"name": "description"}) or
soup.find("meta", {"property": "og:description"})`. -/
def metaDescTag (doc : Doc) : Option Node :=
  (findL isMetaNameDesc doc).orElse (fun _ => findL isMetaOgDesc doc)

/-- Lines 52-67: hotel description. -/
def extractDescription (doc : Doc) : String :=
  let d1 :=
    match findL isAboutTab doc with
    | some t => aboutText t
    | none => "N/A"
  if d1 = "N/A" ∨ d1 = "" then
    match metaDescTag doc with
    | some m => pyStrip (nodeAttrD m "content" "")
    | none => d1
  else d1

/-- The text filter of line 77: `re.compile(r"telephone")` used as
`string=` matcher, i.e. the node's string contains "telephone". -/
def hasTelephone (s : String) : Bool := strContains s "telephone"

/-- Line 80 on a string: the captured `"telephone":"..."` value. -/
def telValue (s : String) : Option String := telSearch s.toList

/-- The text filter of line 90: the node's string matches
`\d\.\d of 5 bubbles` somewhere. -/
def hasBubbles (s : String) : Bool := bubblesIn s.toList

/-- Lines 69-82: contact number. -/
def extractContact (doc : Doc) : String :=
  match findL isTelAnchor doc with
  | some a => pyReplace (nodeAttrD a "href" "") "tel:" ""
  | none =>
    match findStrL hasTelephone doc with
    | some s =>
      match telValue s with
      | some v => v
      | none => "N/A"
    | none => "N/A"

/-- Lines 84-94: review rating. -/
def extractRating (doc : Doc) : String :=
  match findL isRatingSpan doc with
  | some t => pyStrip (textProp t)
  | none =>
    match findStrL hasBubbles doc with
    | some s => String.mk (s.toList.takeWhile (fun c => c ≠ ' '))
    | none => "N/A"

/-- Lines 103-105: the stripped text of the review-count element, fed
through `re.search(r'([\\d,]+)', ...)`. -/
def reviewNumRun (t : Node) : Option (List Char) :=
  firstNumRun (pyStrip (textProp t)).toList

/-- Lines 96-107: review count. -/
def extractReviewCount (doc : Doc) : String :=
  match findL isReviewCount doc with
  | some t =>
    match reviewNumRun t with
    | some r => pyReplace (String.mk r) "," ""
    | none => "N/A"
  | none => "N/A"

/-- Line 116: `img.get("data-lazyurl") or img.get("data-src") or
img.get("src")`, combined with the truthiness test of line 118: an empty
or absent attribute falls through to the next one; if all three are empty
or absent the element yields no source. -/
def imgSrc (n : Node) : Option String :=
  let g := fun (k : String) =>
    match nodeAttr n k with
    | some v => if v = "" then none else some v
    | none => none
  (g "data-lazyurl").orElse (fun _ => (g "data-src").orElse (fun _ => g "src"))

/-- The photo-asset path marker of line 118. -/
def photoKey : String := "media/photo-"

/-- The denylist of line 120. -/
def denyList : List String := ["avatar", "logo", "icon", "map_pin", ".svg", "blank.gif"]

/-- `any(x in src for x in denyList)`. -/
def denyAny (s : String) : Bool := denyList.any (fun d => strContains s d)

/-- Lines 114-137: the image-collection loop, including the
`len(images) >= 10` break.  The `continue` taken on a denylisted source
skips the cap check of that iteration, exactly as in the Python loop. -/
def imgLoop : List Node → List String → List String
  | [], images => images
  | img :: rest, images =>
    match imgSrc img with
    | some src =>
      if strContains src photoKey then
        if denyAny src then imgLoop rest images
        else
          let hi := stripQuery (rewriteStr src)
          let images2 := if images.contains hi then images else images ++ [hi]
          if 10 ≤ images2.length then images2 else imgLoop rest images2
      else if 10 ≤ images.length then images else imgLoop rest images
    | none => if 10 ≤ images.length then images else imgLoop rest images

/-- Lines 110-137: the image list of a document. -/
def extractImages (doc : Doc) : List String := imgLoop (findAllL isImg doc) []

/-- The same collection loop with the cap removed: every qualifying,
deduplicated image of the document, in document order.  Used only to state
that the capped loop returns the first ten of these. -/
def imgLoopAll : List Node → List String → List String
  | [], images => images
  | img :: rest, images =>
    match imgSrc img with
    | some src =>
      if strContains src photoKey then
        if denyAny src then imgLoopAll rest images
        else
          let hi := stripQuery (rewriteStr src)
          let images2 := if images.contains hi then images else images ++ [hi]
          imgLoopAll rest images2
      else imgLoopAll rest images
    | none => imgLoopAll rest images

/-- All qualifying post-filter images of a document, uncapped. -/
def extractImagesAll (doc : Doc) : List String := imgLoopAll (findAllL isImg doc) []

/-! ## The request handler (src/main.py lines 14-153) -/

/-- The `data` object of the response payload. -/
structure HotelData where
  hotel_name : String
  hotel_description : String
  contact_number : String
  hotel_review_rating : String
  total_review_count : String
  images : List String
deriving Repr, DecidableEq

/-- Lines 32-148: the whole extraction over one parsed document.  The name
extractor runs first and its `decompose` calls mutate the soup; every
later extractor queries the mutated document, as in the source. -/
def extract (doc : Doc) : HotelData :=
  let nd := extractName doc
  { hotel_name := nd.2
    hotel_description := extractDescription nd.1
    contact_number := extractContact nd.1
    hotel_review_rating := extractRating nd.1
    total_review_count := extractReviewCount nd.1
    images := extractImages nd.1 }

/-- Outcome of `requests.get(url, ..., timeout=10)`: either the request
completed with a status code and a (parsed) body, or the library raised
(timeout, connection error, ...). -/
inductive FetchOutcome where
  | completed (status : Nat) (body : Doc)
  | raised (msg : String)
deriving Repr

/-- A Python exception escaping the `try` body: a FastAPI `HTTPException`
(which subclasses `Exception`) or any other exception. -/
inductive PyExc where
  | httpError (status : Nat) (detail : String)
  | other (msg : String)
deriving Repr, DecidableEq

/-- Python `str(e)`: Starlette's `HTTPException.__str__` renders
`"{status_code}: {detail}"`. -/
def excStr : PyExc → String
  | PyExc.httpError s d => toString s ++ ": " ++ d
  | PyExc.other m => m

/-- Lines 26-149: the body of the `try` block.  A non-200 status raises
`HTTPException(status_code=400, ...)`; otherwise the body is parsed and
extracted. -/
def tryBody : FetchOutcome → Except PyExc HotelData
  | FetchOutcome.raised m => Except.error (PyExc.other m)
  | FetchOutcome.completed status body =>
    if status ≠ 200 then
      Except.error
        (PyExc.httpError 400 ("Failed to fetch page. Status code: " ++ toString status))
    else Except.ok (extract body)

/-- Lines 26-153: the whole endpoint.  Any exception escaping the `try`
body — including the deliberately raised `HTTPException(400)` — is caught
by `except Exception` and re-raised as `HTTPException(status_code=500,
detail=str(e))`. -/
def scrape_hotel (o : FetchOutcome) : Except PyExc HotelData :=
  match tryBody o with
  | Except.ok d => Except.ok d
  | Except.error e => Except.error (PyExc.httpError 500 (excStr e))


/-- `b` arises from `a` by replacing some characters with the letter `w`
(everything else kept in place): the shape of what the high-resolution
substitution does to a URL. -/
inductive WSub : List Char → List Char → Prop where
  | nil : WSub [] []
  | keep (c : Char) {l r : List Char} (h : WSub l r) : WSub (c :: l) (c :: r)
  | subw (c : Char) {l r : List Char} (h : WSub l r) : WSub (c :: l) ('w' :: r)

/-! # Verification

One theorem per claim of the specification, with supporting lemmas. -/

/-- Recover a string from the character list of its own `String.mk`. -/
theorem toList_mk (l : List Char) : (String.mk l).toList = l := rfl

/-- `String.mk` inverts `String.toList`. -/
theorem mk_toList (s : String) : String.mk s.toList = s := rfl

/-- C1 (code bug witness): when the HTTP fetch completes with status 404,
the handler deliberately raises a client-correctable `HTTPException(400)`
inside the `try` block, but the blanket `except Exception` intercepts it
and re-raises it as `HTTPException(500, str(e))`: the caller observes an
internal error, contradicting the claim that a non-2xx fetch is never
reported as an internal error.  (Extraction is still not attempted.) -/
theorem c1_non2xx_is_reported_as_internal_500 :
    tryBody (FetchOutcome.completed 404 []) =
      Except.error (PyExc.httpError 400 "Failed to fetch page. Status code: 404")
    ∧ scrape_hotel (FetchOutcome.completed 404 []) =
      Except.error (PyExc.httpError 500 "400: Failed to fetch page. Status code: 404") :=
  ⟨rfl, rfl⟩

/-- C9: the whole operation is a pure function of the fetched input; two
runs on identical input produce identical output (the in-place badge/icon
removal is request-scoped: each run rebuilds its own tree). -/
theorem c9_extraction_deterministic (o₁ o₂ : FetchOutcome) (h : o₁ = o₂) :
    scrape_hotel o₁ = scrape_hotel o₂ ∧
      ∀ d₁ d₂ : Doc, d₁ = d₂ → extract d₁ = extract d₂ := by
  subst h
  exact ⟨rfl, fun d₁ d₂ hd => by rw [hd]⟩

/-- Witness for C9 at a concrete fetched document. -/
theorem c9_extraction_deterministic_witness :
    scrape_hotel (FetchOutcome.completed 200 [Node.text "x"]) =
      scrape_hotel (FetchOutcome.completed 200 [Node.text "x"]) :=
  (c9_extraction_deterministic _ _ rfl).1

/-- C10: source resolution of an image element: a present-but-empty
lazy-load attribute is treated as absent and resolution falls through
`data-lazyurl`, then `data-src`, then `src`; an element where all three
are empty or absent resolves to no source and is skipped entirely by the
collection loop (its iteration leaves the accumulated list unchanged and
scanning proceeds with the remaining elements). -/
theorem c10_img_source_fallthrough (n : Node) (rest : List Node) (images : List String) :
    (∀ v, nodeAttr n "data-lazyurl" = some v → v ≠ "" → imgSrc n = some v)
    ∧ ((nodeAttr n "data-lazyurl" = some "" ∨ nodeAttr n "data-lazyurl" = none) →
        (∀ v, nodeAttr n "data-src" = some v → v ≠ "" → imgSrc n = some v)
        ∧ ((nodeAttr n "data-src" = some "" ∨ nodeAttr n "data-src" = none) →
            (∀ v, nodeAttr n "src" = some v → v ≠ "" → imgSrc n = some v)
            ∧ ((nodeAttr n "src" = some "" ∨ nodeAttr n "src" = none) →
                imgSrc n = none)))
    ∧ (imgSrc n = none → images.length ≤ 9 →
        imgLoop (n :: rest) images = imgLoop rest images) := by
  refine ⟨?_, ?_, ?_⟩
  · intro v hv hne
    simp [imgSrc, hv, hne]
  · rintro (h1 | h1) <;>
    · refine ⟨?_, ?_⟩
      · intro v hv hne
        simp [imgSrc, h1, hv, hne]
      · rintro (h2 | h2) <;>
        · refine ⟨?_, ?_⟩
          · intro v hv hne
            simp [imgSrc, h1, h2, hv, hne]
          · rintro (h3 | h3) <;> simp [imgSrc, h1, h2, h3]
  · intro hnone hlen
    have : ¬ (10 ≤ images.length) := by omega
    simp [imgLoop, hnone, this]

/-- Witness for C10: an image element whose `data-lazyurl` is present but
empty resolves through `data-src`; one with all three attributes empty or
absent resolves to nothing. -/
theorem c10_img_source_fallthrough_witness :
    imgSrc (Node.elem "img" [("data-lazyurl", ""), ("data-src", "/media/photo-s/x.jpg")] [])
      = some "/media/photo-s/x.jpg"
    ∧ imgSrc (Node.elem "img" [("data-lazyurl", ""), ("src", "")] []) = none :=
  ⟨((c10_img_source_fallthrough
        (Node.elem "img" [("data-lazyurl", ""), ("data-src", "/media/photo-s/x.jpg")] [])
        [] []).2.1 (Or.inl rfl)).1 "/media/photo-s/x.jpg" rfl (by decide),
   (((c10_img_source_fallthrough
        (Node.elem "img" [("data-lazyurl", ""), ("src", "")] [])
        [] []).2.1 (Or.inl rfl)).2 (Or.inr rfl)).2 (Or.inl rfl)⟩

/-- Every character of the run extracted by `re.search(r'([\\d,]+)', ...)`
is a digit or a comma. -/
theorem firstNumRun_chars (l r : List Char) (h : firstNumRun l = some r) :
    ∀ c ∈ r, isNumChar c = true := by
  induction l with
  | nil => simp [firstNumRun] at h
  | cons c rest ih =>
    by_cases hc : isNumChar c
    · simp only [firstNumRun, hc, if_pos] at h
      cases h
      intro x hx
      rcases List.mem_cons.mp hx with hx | hx
      · exact hx ▸ hc
      · exact List.mem_takeWhile_imp hx
    · simp only [firstNumRun, hc, if_neg, Bool.false_eq_true, not_false_iff] at h
      exact ih h

/-- `str.replace(",", "")` just filters out the commas. -/
theorem replaceAll_comma (l : List Char) :
    replaceAll [','] [] l = l.filter (fun c => c ≠ ',') := by
  induction l with
  | nil => rfl
  | cons c rest ih =>
    by_cases hc : c = ','
    · subst hc
      simpa [replaceAll, replGo, List.isPrefixOf] using ih
    · simpa [replaceAll, replGo, List.isPrefixOf, hc, Ne.symm hc] using ih

/-- C7: the review-count extractor returns Unknown when the
`bubbleReviewCount` element is absent or its text has no digit-and-comma
token; otherwise it returns the leftmost digit-and-comma token of the
element's stripped text with the commas removed — a string made of digits
only. -/
theorem c7_review_count (doc : Doc) :
    (findL isReviewCount doc = none → extractReviewCount doc = "N/A")
    ∧ ∀ t, findL isReviewCount doc = some t →
        (reviewNumRun t = none →
          extractReviewCount doc = "N/A")
        ∧ ∀ r, reviewNumRun t = some r →
            extractReviewCount doc = pyReplace (String.mk r) "," ""
            ∧ ∀ c ∈ (extractReviewCount doc).toList, c.isDigit = true := by
  refine ⟨fun h => by simp [extractReviewCount, h], fun t ht => ⟨fun hn => ?_, fun r hr => ?_⟩⟩
  · simp [extractReviewCount, ht, hn]
  · have he : extractReviewCount doc = pyReplace (String.mk r) "," "" := by
      simp [extractReviewCount, ht, hr]
    refine ⟨he, ?_⟩
    intro c hc
    rw [he] at hc
    have : (pyReplace (String.mk r) "," "").toList = r.filter (fun c => c ≠ ',') := by
      simpa [pyReplace, toList_mk] using replaceAll_comma r
    rw [this] at hc
    have hmem := List.of_mem_filter hc
    have hr' := firstNumRun_chars _ _ hr c (List.mem_of_mem_filter hc)
    simp only [isNumChar, Bool.or_eq_true] at hr'
    rcases hr' with hd | heq
    · exact hd
    · simp at hmem heq
      exact absurd heq hmem

/-- Witness for C7: text "(1,234 reviews)" yields "1234". -/
theorem c7_review_count_witness :
    extractReviewCount
      [Node.elem "span" [("data-automation", "bubbleReviewCount")]
        [Node.text "(1,234 reviews)"]] = "1234" := by
  have h := (((c7_review_count
      [Node.elem "span" [("data-automation", "bubbleReviewCount")]
        [Node.text "(1,234 reviews)"]]).2
      (Node.elem "span" [("data-automation", "bubbleReviewCount")]
        [Node.text "(1,234 reviews)"]) rfl).2
      ['1', ',', '2', '3', '4'] rfl).1
  exact h.trans (by decide)

/-- C8: a document in which none of the expected elements occur (no
heading, no about container, no meta-description tags, no tel anchor, no
"telephone" text, no rating badge, no bubbles text, no review-count
element, no images) extracts to the Unknown sentinel in all five string
fields and an empty image list.  The embedding is total, so no exception
is possible. -/
theorem c8_empty_doc_all_unknown (doc : Doc)
    (hname : findL isHeading doc = none)
    (habout : findL isAboutTab doc = none)
    (hmeta1 : findL isMetaNameDesc doc = none)
    (hmeta2 : findL isMetaOgDesc doc = none)
    (htel : findL isTelAnchor doc = none)
    (htel2 : findStrL hasTelephone doc = none)
    (hspan : findL isRatingSpan doc = none)
    (hbub : findStrL hasBubbles doc = none)
    (hrev : findL isReviewCount doc = none)
    (himg : findAllL isImg doc = []) :
    extract doc =
      { hotel_name := "N/A", hotel_description := "N/A", contact_number := "N/A",
        hotel_review_rating := "N/A", total_review_count := "N/A", images := [] } := by
  simp [extract, extractName, hname, extractDescription, habout, metaDescTag,
        hmeta1, hmeta2, Option.orElse, extractContact, htel, htel2, extractRating,
        hspan, hbub, extractReviewCount, hrev, extractImages, himg, imgLoop]

/-- Witness for C8: a parse of malformed input that yields a lone text
node with none of the expected elements. -/
theorem c8_empty_doc_all_unknown_witness :
    extract [Node.text "<<< garbage"] =
      { hotel_name := "N/A", hotel_description := "N/A", contact_number := "N/A",
        hotel_review_rating := "N/A", total_review_count := "N/A", images := [] } :=
  c8_empty_doc_all_unknown [Node.text "<<< garbage"]
    rfl rfl rfl rfl rfl (by decide) rfl (by decide) rfl rfl

/-- A list is a prefix (in the executable sense) of itself followed by
anything. -/
theorem isPrefixOf_self_append (pat r : List Char) : pat.isPrefixOf (pat ++ r) = true := by
  induction pat with
  | nil => simp [List.isPrefixOf]
  | cons p ps ih => simp [List.isPrefixOf, ih]

/-- Skipping exactly the length of `a` resumes the replacement scan right
after `a`. -/
theorem replGo_skip (pat rep a rest : List Char) :
    replGo pat rep a.length (a ++ rest) = replGo pat rep 0 rest := by
  induction a with
  | nil => rfl
  | cons x a' ih => simpa [replGo] using ih

/-- `str.replace` leaves a string without any occurrence of the (nonempty)
pattern unchanged. -/
theorem replGo_no_occurrence (pat rep l : List Char)
    (h : containsSub l pat = false) : replGo pat rep 0 l = l := by
  induction l with
  | nil => rfl
  | cons c rest ih =>
    simp only [containsSub, Bool.or_eq_false_iff] at h
    simp [replGo, h.1, ih h.2]

/-- `str.replace` on a string that is the pattern followed by a remainder
containing no further occurrence: exactly one replacement happens. -/
theorem replaceAll_strip_head (pat rep r : List Char) (hne : pat ≠ [])
    (h : containsSub r pat = false) :
    replaceAll pat rep (pat ++ r) = rep ++ r := by
  obtain ⟨p, ps, rfl⟩ : ∃ p ps, pat = p :: ps := by
    cases pat with
    | nil => exact absurd rfl hne
    | cons p ps => exact ⟨p, ps, rfl⟩
  have hpre := isPrefixOf_self_append (p :: ps) r
  have hskip := replGo_skip (p :: ps) rep ps r
  simp only [replaceAll, List.cons_append, replGo, List.append_eq]
  have hc : (!(p :: ps).isEmpty && (p :: ps).isPrefixOf (p :: (ps ++ r))) = true := by
    simp [List.isEmpty, hpre]
  rw [if_pos hc]
  rw [show (p :: ps).length - 1 = ps.length from by simp]
  rw [hskip, replGo_no_occurrence _ _ _ h]

/-- C5 (amended): tier 1 returns the tel-anchor's href with every
occurrence of the substring "tel:" removed; this coincides with plain
scheme-prefix stripping exactly when "tel:" does not occur in the
remainder.  Tier 2 searches text nodes for "telephone" and applies the
JSON-fragment regex inside the first hit; Unknown when neither tier
succeeds. -/
theorem c5_contact_amended (doc : Doc) :
    (∀ a href, findL isTelAnchor doc = some a → nodeAttr a "href" = some href →
       extractContact doc = pyReplace href "tel:" ""
       ∧ ∀ r, href = "tel:" ++ r → strContains r "tel:" = false →
           extractContact doc = r)
    ∧ (findL isTelAnchor doc = none →
        (∀ s, findStrL hasTelephone doc = some s →
           (∀ v, telValue s = some v → extractContact doc = v)
           ∧ (telValue s = none → extractContact doc = "N/A"))
        ∧ (findStrL hasTelephone doc = none → extractContact doc = "N/A")) := by
  constructor
  · intro a href ha hh
    have he : extractContact doc = pyReplace href "tel:" "" := by
      simp [extractContact, ha, nodeAttrD, hh]
    refine ⟨he, fun r hr hno => ?_⟩
    subst hr
    rw [he]
    show String.mk (replaceAll "tel:".toList "".toList ("tel:" ++ r).toList) = r
    rw [show ("tel:" ++ r).toList = "tel:".toList ++ r.toList from rfl]
    rw [replaceAll_strip_head _ _ _ (by decide) hno]
    exact mk_toList r
  · intro ha
    refine ⟨fun s hs => ⟨fun v hv => ?_, fun hv => ?_⟩, fun hs => ?_⟩
    · simp [extractContact, ha, hs, hv]
    · simp [extractContact, ha, hs, hv]
    · simp [extractContact, ha, hs]

/-- Witness for C5 (amended): both tiers at concrete documents. -/
theorem c5_contact_amended_witness :
    extractContact [Node.elem "a" [("href", "tel:+15551234567")] []] = "+15551234567"
    ∧ extractContact
        [Node.elem "script" []
          [Node.text "var x = \x7b\"telephone\":\"+15559876543\"\x7d;"]] =
        "+15559876543" := by
  constructor
  · exact ((c5_contact_amended [Node.elem "a" [("href", "tel:+15551234567")] []]).1
      (Node.elem "a" [("href", "tel:+15551234567")] []) "tel:+15551234567" rfl rfl).2
      "+15551234567" rfl (by decide)
  · exact (((c5_contact_amended
        [Node.elem "script" []
          [Node.text "var x = \x7b\"telephone\":\"+15559876543\"\x7d;"]]).2 rfl).1
        "var x = \x7b\"telephone\":\"+15559876543\"\x7d;" rfl).1
        "+15559876543" (by decide)

/-- C5 (counterexample): the code removes every occurrence of "tel:" from
the href, so the remainder is not returned intact when it itself contains
"tel:" — for href "tel:hotel:5" the extractor returns "ho5", not
"hotel:5". -/
theorem c5_contact_counterexample :
    extractContact [Node.elem "a" [("href", "tel:hotel:5")] []] = "ho5"
    ∧ extractContact [Node.elem "a" [("href", "tel:hotel:5")] []] ≠ "hotel:5" :=
  ⟨by decide, by decide⟩

/-- A digit character is not a space. -/
theorem digit_ne_space (c : Char) (h : c.isDigit = true) : c ≠ ' ' := by
  intro heq
  subst heq
  simp at h

/-- C6 (amended): when the `uwJeR` badge element exists its stripped text
is returned; otherwise, on the first text node matching
"<digit>.<digit> of 5 bubbles", the extractor returns the first
space-delimited token of that node's whole text — which equals the
leading "<digit>.<digit>" value exactly when the node's text begins with
the matched pattern; Unknown when neither tier succeeds. -/
theorem c6_rating_amended (doc : Doc) :
    (∀ t, findL isRatingSpan doc = some t → extractRating doc = pyStrip (textProp t))
    ∧ (findL isRatingSpan doc = none →
        (∀ s, findStrL hasBubbles doc = some s →
          extractRating doc = String.mk (s.toList.takeWhile (fun c => c ≠ ' '))
          ∧ ∀ a b r, s.toList = a :: '.' :: b :: ' ' :: r → a.isDigit = true →
              b.isDigit = true → extractRating doc = String.mk [a, '.', b])
        ∧ (findStrL hasBubbles doc = none → extractRating doc = "N/A")) := by
  refine ⟨fun t ht => by simp [extractRating, ht], fun hsp => ⟨fun s hs => ?_, fun hs => ?_⟩⟩
  · have he : extractRating doc = String.mk (s.toList.takeWhile (fun c => c ≠ ' ')) := by
      simp [extractRating, hsp, hs]
    refine ⟨he, fun a b r hchars hda hdb => ?_⟩
    rw [he, hchars]
    have ha := digit_ne_space a hda
    have hb := digit_ne_space b hdb
    simp [List.takeWhile, ha, hb]
  · simp [extractRating, hsp, hs]

/-- Witness for C6 (amended): both tiers at concrete documents. -/
theorem c6_rating_amended_witness :
    extractRating [Node.elem "span" [("class", "abc uwJeR")] [Node.text " 5.0 "]] = "5.0"
    ∧ extractRating [Node.text "4.5 of 5 bubbles"] = "4.5" := by
  constructor
  · exact ((c6_rating_amended
        [Node.elem "span" [("class", "abc uwJeR")] [Node.text " 5.0 "]]).1
        (Node.elem "span" [("class", "abc uwJeR")] [Node.text " 5.0 "]) rfl).trans (by decide)
  · exact ((((c6_rating_amended [Node.text "4.5 of 5 bubbles"]).2 rfl).1
        "4.5 of 5 bubbles" rfl).2 '4' '5' "of 5 bubbles".toList rfl
        (by decide) (by decide)).trans (by decide)

/-- C6 (counterexample): the fallback takes the first space-delimited
token of the whole matching text node, not of the matched pattern: on the
node "Rated 4.5 of 5 bubbles" the extractor returns "Rated", not the
numeric "4.5" the claim promises. -/
theorem c6_rating_counterexample :
    extractRating [Node.text "Rated 4.5 of 5 bubbles"] = "Rated"
    ∧ extractRating [Node.text "Rated 4.5 of 5 bubbles"] ≠ "4.5" :=
  ⟨by decide, by decide⟩

/-- C4 (amended): tier 1 takes the about container's space-joined,
"Read more"-stripped, trimmed text when nonempty; an empty or absent tier
1 falls back to the `name="description"` meta tag, else the
`property="og:description"` one, returning its content trimmed; with no
meta tag the result is Unknown when the container was absent, but the
empty string when the container was present with empty text. -/
theorem c4_description (doc : Doc) :
    (∀ t, findL isAboutTab doc = some t → aboutText t ≠ "" → aboutText t ≠ "N/A" →
        extractDescription doc = aboutText t)
    ∧ (findL isAboutTab doc = none →
        (∀ m, metaDescTag doc = some m →
            extractDescription doc = pyStrip (nodeAttrD m "content" ""))
        ∧ (metaDescTag doc = none → extractDescription doc = "N/A"))
    ∧ (∀ t, findL isAboutTab doc = some t → aboutText t = "" →
        (∀ m, metaDescTag doc = some m →
            extractDescription doc = pyStrip (nodeAttrD m "content" ""))
        ∧ (metaDescTag doc = none → extractDescription doc = ""))
    ∧ (∀ m, findL isMetaNameDesc doc = some m → metaDescTag doc = some m)
    ∧ (findL isMetaNameDesc doc = none → metaDescTag doc = findL isMetaOgDesc doc) := by
  refine ⟨fun t ht h1 h2 => ?_, fun ht => ⟨fun m hm => ?_, fun hm => ?_⟩,
    fun t ht h1 => ⟨fun m hm => ?_, fun hm => ?_⟩, fun m hm => ?_, fun hm => ?_⟩
  · simp [extractDescription, ht, h1, h2]
  · simp [extractDescription, ht, hm]
  · simp [extractDescription, ht, hm]
  · simp [extractDescription, ht, h1, hm]
  · simp [extractDescription, ht, h1, hm]
  · simp [metaDescTag, hm, Option.orElse]
  · simp [metaDescTag, hm, Option.orElse]

/-- Witness for C4: the three fallback shapes at concrete documents. -/
theorem c4_description_witness :
    extractDescription
      [Node.elem "div" [("data-automation", "aboutTabDescription")]
        [Node.text "A fine hotel."]] = "A fine hotel."
    ∧ extractDescription
        [Node.elem "meta" [("name", "description"), ("content", " meta desc ")] []] =
        "meta desc"
    ∧ extractDescription [Node.text "nothing here"] = "N/A" := by
  refine ⟨?_, ?_, ?_⟩
  · exact ((c4_description
        [Node.elem "div" [("data-automation", "aboutTabDescription")]
          [Node.text "A fine hotel."]]).1
        (Node.elem "div" [("data-automation", "aboutTabDescription")]
          [Node.text "A fine hotel."]) rfl (by decide) (by decide)).trans (by decide)
  · exact (((c4_description
        [Node.elem "meta" [("name", "description"), ("content", " meta desc ")] []]).2.1
        rfl).1
        (Node.elem "meta" [("name", "description"), ("content", " meta desc ")] [])
        rfl).trans (by decide)
  · exact ((c4_description [Node.text "nothing here"]).2.1 rfl).2 rfl

/-- C4 (counterexample): with an about container present but empty and no
meta tags, the result is the empty string, not the Unknown sentinel the
claim promises. -/
theorem c4_description_counterexample :
    extractDescription [Node.elem "div" [("data-automation", "aboutTabDescription")] []] = ""
    ∧ extractDescription [Node.elem "div" [("data-automation", "aboutTabDescription")] []]
        ≠ "N/A" :=
  ⟨by decide, by decide⟩

/-- Texts of a concatenated forest. -/
theorem textsL_append (a b : List Node) : textsL (a ++ b) = textsL a ++ textsL b := by
  induction a with
  | nil => simp [textsL]
  | cons n rest ih => simp [textsL, ih]

/-- `find_all` over a concatenated forest. -/
theorem findAllL_append (p : Node → Bool) (a b : List Node) :
    findAllL p (a ++ b) = findAllL p a ++ findAllL p b := by
  induction a with
  | nil => simp [findAllL]
  | cons n rest ih => simp [findAllL, ih]

mutual
/-- Removing the first matching subtree only removes text nodes, keeping
the rest in order. -/
theorem textsL_rmFirstN (p : Node → Bool) (n : Node) :
    (textsL (rmFirstN p n).1).Sublist (textsN n) := by
  cases n with
  | text s => simp [rmFirstN, textsL, textsN]
  | elem t a c =>
    by_cases hp : p (Node.elem t a c)
    · simp [rmFirstN, hp, textsL, textsN]
    · simpa [rmFirstN, hp, textsL, textsN] using textsL_rmFirstL p c

/-- Forest version of `textsL_rmFirstN`. -/
theorem textsL_rmFirstL (p : Node → Bool) (l : List Node) :
    (textsL (rmFirstL p l).1).Sublist (textsL l) := by
  cases l with
  | nil => simp [rmFirstL, textsL]
  | cons n rest =>
    by_cases hf : (rmFirstN p n).2
    · have h1 := textsL_rmFirstN p n
      simp only [rmFirstL, hf, if_pos, textsL, textsL_append]
      exact h1.append (List.Sublist.refl _)
    · have h2 := textsL_rmFirstL p rest
      simp only [rmFirstL, hf, if_neg, Bool.false_eq_true, not_false_iff, textsL]
      exact (List.Sublist.refl _).append h2
end

mutual
/-- Removing all matching subtrees only removes text nodes, keeping the
rest in order. -/
theorem textsL_rmAllN (p : Node → Bool) (n : Node) :
    (textsL (rmAllN p n)).Sublist (textsN n) := by
  cases n with
  | text s => simp [rmAllN, textsL, textsN]
  | elem t a c =>
    by_cases hp : p (Node.elem t a c)
    · simp [rmAllN, hp, textsL, textsN]
    · simpa [rmAllN, hp, textsL, textsN] using textsL_rmAllL p c

/-- Forest version of `textsL_rmAllN`. -/
theorem textsL_rmAllL (p : Node → Bool) (l : List Node) :
    (textsL (rmAllL p l)).Sublist (textsL l) := by
  cases l with
  | nil => simp [rmAllL, textsL]
  | cons n rest =>
    have h1 := textsL_rmAllN p n
    have h2 := textsL_rmAllL p rest
    simp only [rmAllL, textsL, textsL_append]
    exact h1.append h2
end

mutual
/-- After removing every `svg` subtree, no `svg` element remains. -/
theorem svgFree_rmAllN (n : Node) : findAllL isSvg (rmAllN isSvg n) = [] := by
  cases n with
  | text s => simp [rmAllN, findAllL, findAllN]
  | elem t a c =>
    by_cases hp : isSvg (Node.elem t a c)
    · simp [rmAllN, hp, findAllL]
    · have hp' : isSvg (Node.elem t a (rmAllL isSvg c)) = false := by
        simpa [isSvg] using hp
      simpa [rmAllN, hp, findAllL, findAllN, hp'] using svgFree_rmAllL c

/-- Forest version of `svgFree_rmAllN`. -/
theorem svgFree_rmAllL (l : List Node) : findAllL isSvg (rmAllL isSvg l) = [] := by
  cases l with
  | nil => simp [rmAllL, findAllL]
  | cons n rest =>
    have h1 := svgFree_rmAllN n
    have h2 := svgFree_rmAllL rest
    simp [rmAllL, findAllL_append, h1, h2]
end

mutual
/-- Whatever `find` returns satisfies the filter. -/
theorem findN_sat (p : Node → Bool) (n m : Node) (h : findN p n = some m) :
    p m = true := by
  cases n with
  | text s => simp [findN] at h
  | elem t a c =>
    by_cases hp : p (Node.elem t a c)
    · simp only [findN, hp, if_pos] at h
      cases h
      exact hp
    · simp only [findN, hp, if_neg, Bool.false_eq_true, not_false_iff] at h
      exact findL_sat p c m h

/-- Forest version of `findN_sat`. -/
theorem findL_sat (p : Node → Bool) (l : List Node) (m : Node)
    (h : findL p l = some m) : p m = true := by
  cases l with
  | nil => simp [findL] at h
  | cons n rest =>
    cases hn : findN p n with
    | some x =>
      rw [findL, hn] at h
      cases h
      exact findN_sat p n m hn
    | none =>
      rw [findL, hn] at h
      exact findL_sat p rest m h
end

/-- The cleaned heading keeps only a subsequence of the original heading's
text nodes. -/
theorem cleanH1_texts_sublist (h : Node) : (textsN (cleanH1 h)).Sublist (textsN h) := by
  cases h with
  | text s => simp [cleanH1]
  | elem t a c =>
    show (textsL (rmAllL isSvg (rmFirstL isBadge c).1)).Sublist (textsL c)
    exact (textsL_rmAllL isSvg _).trans (textsL_rmFirstL isBadge c)

/-- C3 (amended): Unknown exactly signals an absent heading; when the
heading is present the extractor removes the first claimed-badge
descendant and every svg (icon) subtree, then returns the concatenation
of the stripped surviving text nodes — a subsequence of the heading's
original text nodes, with no svg element left — and this remaining text
may be the empty string rather than Unknown. -/
theorem c3_name_amended (doc : Doc) :
    (findL isHeading doc = none → (extractName doc).2 = "N/A")
    ∧ ∀ h, findL isHeading doc = some h →
        (extractName doc).2 = getTextSepStrip "" (cleanH1 h)
        ∧ (textsN (cleanH1 h)).Sublist (textsN h)
        ∧ findAllL isSvg [cleanH1 h] = [] := by
  refine ⟨fun hn => by simp [extractName, hn], fun h hh => ⟨?_, cleanH1_texts_sublist h, ?_⟩⟩
  · simp [extractName, hh]
  · have hsat := findL_sat _ _ _ hh
    cases h with
    | text s => simp [isHeading] at hsat
    | elem t a c =>
      have ht : t = "h1" := by
        simp [isHeading] at hsat
        exact hsat.1
      subst ht
      have hsvg : isSvg (Node.elem "h1" a (rmAllL isSvg (rmFirstL isBadge c).1)) = false := by
        simp [isSvg]
      simp [cleanH1, findAllL, findAllN, hsvg, svgFree_rmAllL]

/-- Witness for C3 (amended): the badge text "Claimed" and the svg text
are excluded from the returned name. -/
theorem c3_name_amended_witness :
    (extractName
      [Node.elem "h1" [("id", "HEADING")]
        [Node.text " Grand Hotel ",
         Node.elem "span" [("data-automation", "listingBadgeTooltip")] [Node.text "Claimed"],
         Node.elem "svg" [] [Node.text "star icon"]]]).2 = "Grand Hotel" := by
  exact (((c3_name_amended
      [Node.elem "h1" [("id", "HEADING")]
        [Node.text " Grand Hotel ",
         Node.elem "span" [("data-automation", "listingBadgeTooltip")] [Node.text "Claimed"],
         Node.elem "svg" [] [Node.text "star icon"]]]).2
      (Node.elem "h1" [("id", "HEADING")]
        [Node.text " Grand Hotel ",
         Node.elem "span" [("data-automation", "listingBadgeTooltip")] [Node.text "Claimed"],
         Node.elem "svg" [] [Node.text "star icon"]]) rfl).1).trans (by decide)

/-- C3 (counterexample): a heading whose only content is an icon yields
the empty string, not the Unknown sentinel the claim promises. -/
theorem c3_name_counterexample :
    (extractName [Node.elem "h1" [("id", "HEADING")]
        [Node.elem "svg" [] [Node.text "X"]]]).2 = ""
    ∧ (extractName [Node.elem "h1" [("id", "HEADING")]
        [Node.elem "svg" [] [Node.text "X"]]]).2 ≠ "N/A" :=
  ⟨rfl, by decide⟩

/-- Executable prefix test vs the propositional one. -/
theorem isPre_iff (a b : List Char) : a.isPrefixOf b = true ↔ a <+: b :=
  List.isPrefixOf_iff_prefix

/-- Splitting an occurrence inside a cons cell: it either starts at the
head or lies in the tail. -/
theorem infixSplit (d : List Char) (c : Char) (l : List Char) :
    d <:+: c :: l ↔ d <+: c :: l ∨ d <:+: l := by
  constructor
  · rintro ⟨s, t, hst⟩
    cases s with
    | nil => exact Or.inl ⟨t, by simpa using hst⟩
    | cons y s' =>
      right
      refine ⟨s', t, ?_⟩
      have := hst
      simp only [List.cons_append, List.append_assoc] at this ⊢
      exact (List.cons.injEq .. ▸ this).2
  · rintro (⟨t, ht⟩ | ⟨s, t, hst⟩)
    · exact ⟨[], t, by simpa using ht⟩
    · exact ⟨c :: s, t, by simp [hst]⟩

/-- The executable substring test agrees with list-infix. -/
theorem containsSub_iff (l pat : List Char) : containsSub l pat = true ↔ pat <:+: l := by
  induction l with
  | nil =>
    cases pat <;> simp [containsSub, List.isEmpty]
  | cons c rest ih =>
    rw [containsSub, Bool.or_eq_true, isPre_iff, ih, infixSplit]

/-- An occurrence of a singleton is just membership. -/
theorem singleton_inf_iff (c : Char) (l : List Char) : [c] <:+: l ↔ c ∈ l := by
  constructor
  · rintro ⟨s, t, hst⟩
    subst hst
    simp
  · intro hm
    obtain ⟨s, t, rfl⟩ := List.append_of_mem hm
    exact ⟨s, t, by simp⟩

/-- An occurrence inside a prefix is an occurrence in the whole list. -/
theorem inf_of_inf_pre (d a b : List Char) (h1 : d <:+: a) (h2 : a <+: b) : d <:+: b := by
  obtain ⟨s, t, rfl⟩ := h1
  obtain ⟨r, rfl⟩ := h2
  exact ⟨s, t ++ r, by simp⟩

/-- `WSub` is preserved under prepending equal contexts. -/
theorem WSub.append_left (p : List Char) {a b : List Char} (h : WSub a b) :
    WSub (p ++ a) (p ++ b) := by
  induction p with
  | nil => simpa using h
  | cons c p' ih => exact WSub.keep c ih

/-- A pattern free of the letter `w` survives `WSub` backwards along a
prefix. -/
theorem wsub_pre {a b : List Char} (hw : WSub a b) (d : List Char)
    (hnw : ∀ c ∈ d, c ≠ 'w') (hp : d <+: b) : d <+: a := by
  induction hw generalizing d with
  | nil =>
    rw [List.prefix_nil] at hp
    simp [hp]
  | keep c h ih =>
    cases d with
    | nil => simp
    | cons x d' =>
      rw [List.cons_prefix_cons] at hp ⊢
      exact ⟨hp.1, ih d' (fun y hy => hnw y (List.mem_cons_of_mem x hy)) hp.2⟩
  | subw c h ih =>
    cases d with
    | nil => simp
    | cons x d' =>
      rw [List.cons_prefix_cons] at hp
      exact absurd hp.1 (hnw x (List.mem_cons_self x d'))

/-- A pattern free of the letter `w` occurring in the substituted list
already occurred in the original. -/
theorem wsub_inf {a b : List Char} (hw : WSub a b) (d : List Char)
    (hnw : ∀ c ∈ d, c ≠ 'w') (hi : d <:+: b) : d <:+: a := by
  induction hw generalizing d with
  | nil =>
    rw [List.infix_nil] at hi
    simp [hi]
  | keep c h ih =>
    rcases (infixSplit d c _).mp hi with hp | hi'
    · exact (wsub_pre (WSub.keep c h) d hnw hp).isInfix
    · exact ((ih d hnw hi').trans (List.infix_cons (List.infix_refl _)))
  | subw c h ih =>
    rcases (infixSplit d 'w' _).mp hi with hp | hi'
    · cases d with
      | nil => simp
      | cons x d' =>
        rw [List.cons_prefix_cons] at hp
        exact absurd hp.1 (hnw x (List.mem_cons_self x d'))
    · exact ((ih d hnw hi').trans (List.infix_cons (List.infix_refl _)))

/-- A positive photo-pattern test decomposes the list as the literal
prefix, a size letter, a slash and a remainder. -/
theorem isPhotoAt_decomp (l : List Char) (h : isPhotoAt l = true) :
    ∃ x r, sizeLetter x = true ∧ l = photoPre ++ x :: '/' :: r := by
  rw [isPhotoAt, Bool.and_eq_true] at h
  obtain ⟨hpre, hmatch⟩ := h
  obtain ⟨t, rfl⟩ := (isPre_iff _ _).mp hpre
  rw [show (photoPre ++ t).drop 13 = t from List.drop_left photoPre t] at hmatch
  match t, hmatch with
  | c :: d :: rest, hm =>
    rw [Bool.and_eq_true] at hm
    obtain ⟨hc, hd⟩ := hm
    have hd' : d = '/' := by simpa using hd
    exact ⟨c, rest, hc, by rw [hd']⟩

/-- Skipping exactly the length of `a` resumes the rewrite scan right
after `a`. -/
theorem rewriteGo_skip (a rest : List Char) :
    rewriteGo a.length (a ++ rest) = rewriteGo 0 rest := by
  induction a with
  | nil => rfl
  | cons x a' ih => simpa [rewriteGo] using ih

/-- The high-resolution substitution only ever replaces characters with
the letter `w`, in place. -/
theorem rewrite_wsub_aux (N : Nat) : ∀ l : List Char, l.length ≤ N → WSub l (rewriteGo 0 l) := by
  induction N with
  | zero =>
    intro l hl
    have : l = [] := List.eq_nil_of_length_eq_zero (Nat.le_zero.mp hl)
    subst this
    exact WSub.nil
  | succ N ih =>
    intro l hl
    cases l with
    | nil => exact WSub.nil
    | cons c rest =>
      by_cases hph : isPhotoAt (c :: rest)
      · obtain ⟨x, r, hx, heq⟩ := isPhotoAt_decomp _ hph
        rw [show photoPre = '/' :: "media/photo-".toList from rfl] at heq
        rw [List.cons_append] at heq
        have hc : c = '/' := (List.cons.injEq .. ▸ heq).1
        have hrest : rest = "media/photo-".toList ++ x :: '/' :: r :=
          (List.cons.injEq .. ▸ heq).2
        have hstep : rewriteGo 0 (c :: rest) =
            "/media/photo-w/".toList ++ rewriteGo 14 rest := by
          simp only [rewriteGo]
          rw [if_pos hph]
        have h14 : rewriteGo 14 rest = rewriteGo 0 r := by
          rw [hrest,
            show "media/photo-".toList ++ x :: '/' :: r =
              ("media/photo-".toList ++ [x, '/']) ++ r from by simp,
            show (14 : Nat) = ("media/photo-".toList ++ [x, '/']).length from rfl]
          exact rewriteGo_skip ("media/photo-".toList ++ [x, '/']) r
        have hlen : r.length ≤ N := by
          have := hl
          rw [hrest] at this
          simp at this
          omega
        rw [hstep, h14, hrest]
        subst hc
        exact WSub.keep '/' (WSub.append_left "media/photo-".toList
          (WSub.subw x (WSub.keep '/' (ih r hlen))))
      · have hstep : rewriteGo 0 (c :: rest) = c :: rewriteGo 0 rest := by
          simp only [rewriteGo]
          rw [if_neg hph]
        rw [hstep]
        exact WSub.keep c (ih rest (by simpa using Nat.le_of_succ_le_succ hl))

/-- The rewritten URL differs from the original only by `w`
substitutions. -/
theorem rewrite_wsub (l : List Char) : WSub l (rewriteChars l) :=
  rewrite_wsub_aux l.length l (Nat.le_refl _)

/-- Query stripping keeps a prefix of the URL. -/
theorem stripQuery_pre (s : String) : (stripQuery s).toList <+: s.toList := by
  by_cases h : strContains s "?" = true
  · rw [stripQuery, if_pos h]
    exact ⟨s.toList.dropWhile (fun c => c ≠ '?'),
      List.takeWhile_append_dropWhile (fun c => c ≠ '?') s.toList⟩
  · rw [stripQuery, if_neg h]

/-- A query-stripped URL contains no question mark. -/
theorem stripQuery_noQ (s : String) : strContains (stripQuery s) "?" = false := by
  by_cases h : strContains s "?" = true
  · rw [stripQuery, if_pos h]
    by_contra hq
    rw [Bool.not_eq_false] at hq
    have h1 : ('?' : Char) ∈ (String.mk (s.toList.takeWhile (fun c => c ≠ '?'))).toList :=
      (singleton_inf_iff _ _).mp ((containsSub_iff _ _).mp hq)
    rw [toList_mk] at h1
    have := List.mem_takeWhile_imp h1
    simp at this
  · rw [stripQuery, if_neg h]
    exact Bool.not_eq_true _ ▸ h

/-- None of the denylist substrings contains the letter `w`. -/
theorem deny_no_w : ∀ d ∈ denyList, ∀ c ∈ d.toList, c ≠ 'w' := by decide

/-- A source URL that passes the denylist filter yields an output entry
(after the high-resolution rewrite and query stripping) that still
contains no denylist substring and no question mark. -/
theorem entry_props (s : String) (hd : denyAny s = false) :
    denyAny (stripQuery (rewriteStr s)) = false
    ∧ strContains (stripQuery (rewriteStr s)) "?" = false := by
  refine ⟨?_, stripQuery_noQ _⟩
  rw [denyAny, List.any_eq_false] at hd ⊢
  intro d hdl hcon
  have h1 : d.toList <:+: (stripQuery (rewriteStr s)).toList :=
    (containsSub_iff _ _).mp hcon
  have h2 : d.toList <:+: rewriteChars s.toList :=
    toList_mk (rewriteChars s.toList) ▸ inf_of_inf_pre _ _ _ h1 (stripQuery_pre _)
  have h4 : d.toList <:+: s.toList :=
    wsub_inf (rewrite_wsub s.toList) d.toList (deny_no_w d hdl) h2
  exact (hd d hdl) ((containsSub_iff _ _).mpr h4)

/-- The uncapped collection loop only appends to its accumulator. -/
theorem imgLoopAll_ext (imgs : List Node) :
    ∀ acc, ∃ t, imgLoopAll imgs acc = acc ++ t := by
  induction imgs with
  | nil => exact fun acc => ⟨[], by simp [imgLoopAll]⟩
  | cons img rest ih =>
    intro acc
    cases hs : imgSrc img with
    | none => simpa [imgLoopAll, hs] using ih acc
    | some src =>
      by_cases hp : strContains src photoKey
      · by_cases hd : denyAny src
        · simpa [imgLoopAll, hs, hp, hd] using ih acc
        · by_cases hm : stripQuery (rewriteStr src) ∈ acc
          · simpa [imgLoopAll, hs, hp, hd, hm] using ih acc
          · obtain ⟨t, ht⟩ := ih (acc ++ [stripQuery (rewriteStr src)])
            refine ⟨stripQuery (rewriteStr src) :: t, ?_⟩
            simp only [imgLoopAll, hs, hp, hd, Bool.false_eq_true, if_neg, if_pos]
            simp [hm, ht]
      · simpa [imgLoopAll, hs, hp] using ih acc

/-- The capped loop never exceeds ten entries (from any accumulator
reachable at a loop entry, i.e. one at most nine long). -/
theorem imgLoop_len (imgs : List Node) :
    ∀ acc : List String, acc.length ≤ 9 → (imgLoop imgs acc).length ≤ 10 := by
  induction imgs with
  | nil => intro acc h; simpa [imgLoop] using by omega
  | cons img rest ih =>
    intro acc h
    have hno : ¬ (10 ≤ acc.length) := by omega
    cases hs : imgSrc img with
    | none => simpa [imgLoop, hs, hno] using ih acc h
    | some src =>
      by_cases hp : strContains src photoKey
      · by_cases hd : denyAny src
        · simpa [imgLoop, hs, hp, hd] using ih acc h
        · by_cases hm : stripQuery (rewriteStr src) ∈ acc
          · simpa [imgLoop, hs, hp, hd, hm, hno] using ih acc h
          · by_cases h10 : 9 ≤ acc.length
            · simpa [imgLoop, hs, hp, hd, hm, h10] using h
            · have h9 : (acc ++ [stripQuery (rewriteStr src)]).length ≤ 9 := by
                simp
                omega
              simpa [imgLoop, hs, hp, hd, hm, h10] using ih _ h9
      · simpa [imgLoop, hs, hp, hno] using ih acc h

/-- The capped loop keeps its accumulator duplicate-free. -/
theorem imgLoop_nodup (imgs : List Node) :
    ∀ acc : List String, acc.Nodup → (imgLoop imgs acc).Nodup := by
  induction imgs with
  | nil => intro acc h; simpa [imgLoop] using h
  | cons img rest ih =>
    intro acc h
    cases hs : imgSrc img with
    | none =>
      by_cases h10 : 10 ≤ acc.length
      · simpa [imgLoop, hs, h10] using h
      · simpa [imgLoop, hs, h10] using ih acc h
    | some src =>
      by_cases hp : strContains src photoKey
      · by_cases hd : denyAny src
        · simpa [imgLoop, hs, hp, hd] using ih acc h
        · by_cases hm : stripQuery (rewriteStr src) ∈ acc
          · by_cases h10 : 10 ≤ acc.length
            · simpa [imgLoop, hs, hp, hd, hm, h10] using h
            · simpa [imgLoop, hs, hp, hd, hm, h10] using ih acc h
          · have hnd : (acc ++ [stripQuery (rewriteStr src)]).Nodup := by
              simp [List.nodup_append, h, hm]
            by_cases h10 : 9 ≤ acc.length
            · simpa [imgLoop, hs, hp, hd, hm, h10] using hnd
            · simpa [imgLoop, hs, hp, hd, hm, h10] using ih _ hnd
      · by_cases h10 : 10 ≤ acc.length
        · simpa [imgLoop, hs, hp, h10] using h
        · simpa [imgLoop, hs, hp, h10] using ih acc h

/-- The capped loop computes exactly the first ten entries of the
uncapped loop. -/
theorem imgLoop_take (imgs : List Node) :
    ∀ acc : List String, acc.length ≤ 9 →
      imgLoop imgs acc = (imgLoopAll imgs acc).take 10 := by
  induction imgs with
  | nil =>
    intro acc h
    simp only [imgLoop, imgLoopAll]
    exact (List.take_of_length_le (by omega)).symm
  | cons img rest ih =>
    intro acc h
    have hno : ¬ (10 ≤ acc.length) := by omega
    cases hs : imgSrc img with
    | none => simpa [imgLoop, imgLoopAll, hs, hno] using ih acc h
    | some src =>
      by_cases hp : strContains src photoKey
      · by_cases hd : denyAny src
        · simpa [imgLoop, imgLoopAll, hs, hp, hd] using ih acc h
        · by_cases hm : stripQuery (rewriteStr src) ∈ acc
          · simpa [imgLoop, imgLoopAll, hs, hp, hd, hm, hno] using ih acc h
          · by_cases h10 : 9 ≤ acc.length
            · have hlen : (acc ++ [stripQuery (rewriteStr src)]).length = 10 := by
                simp
                omega
              obtain ⟨t, ht⟩ := imgLoopAll_ext rest (acc ++ [stripQuery (rewriteStr src)])
              have hres : (imgLoopAll rest (acc ++ [stripQuery (rewriteStr src)])).take 10 =
                  acc ++ [stripQuery (rewriteStr src)] := by
                rw [ht, show (10 : Nat) = (acc ++ [stripQuery (rewriteStr src)]).length from
                  hlen.symm]
                exact List.take_left _ _
              simpa [imgLoop, imgLoopAll, hs, hp, hd, hm, h10] using hres.symm
            · have h9 : (acc ++ [stripQuery (rewriteStr src)]).length ≤ 9 := by
                simp
                omega
              simpa [imgLoop, imgLoopAll, hs, hp, hd, hm, h10] using ih _ h9
      · simpa [imgLoop, imgLoopAll, hs, hp, hno] using ih acc h

/-- Provenance of every entry the capped loop produces: it was already in
the accumulator, or it is the normalized form of a resolvable source of
one of the scanned image elements that passed the photo-path and denylist
filters. -/
theorem imgLoop_mem (imgs : List Node) :
    ∀ (acc : List String) (u : String), u ∈ imgLoop imgs acc →
      u ∈ acc ∨ ∃ img s, img ∈ imgs ∧ imgSrc img = some s ∧
        strContains s photoKey = true ∧ denyAny s = false ∧
        u = stripQuery (rewriteStr s) := by
  induction imgs with
  | nil => intro acc u hu; exact Or.inl (by simpa [imgLoop] using hu)
  | cons img rest ih =>
    intro acc u hu
    have step : ∀ acc2 : List String, u ∈ imgLoop rest acc2 →
        (u ∈ acc2 ∨ ∃ i s, i ∈ img :: rest ∧ imgSrc i = some s ∧
          strContains s photoKey = true ∧ denyAny s = false ∧
          u = stripQuery (rewriteStr s)) := by
      intro acc2 hu2
      rcases ih acc2 u hu2 with h | ⟨i, s, hi, hrest⟩
      · exact Or.inl h
      · exact Or.inr ⟨i, s, List.mem_cons_of_mem img hi, hrest⟩
    cases hs : imgSrc img with
    | none =>
      by_cases h10 : 10 ≤ acc.length
      · exact Or.inl (by simpa [imgLoop, hs, h10] using hu)
      · exact step acc (by simpa [imgLoop, hs, h10] using hu)
    | some src =>
      by_cases hp : strContains src photoKey
      · by_cases hd : denyAny src
        · exact step acc (by simpa [imgLoop, hs, hp, hd] using hu)
        · by_cases hm : stripQuery (rewriteStr src) ∈ acc
          · by_cases h10 : 10 ≤ acc.length
            · exact Or.inl (by simpa [imgLoop, hs, hp, hd, hm, h10] using hu)
            · exact step acc (by simpa [imgLoop, hs, hp, hd, hm, h10] using hu)
          · by_cases h10 : 9 ≤ acc.length
            · have hu' : u ∈ acc ++ [stripQuery (rewriteStr src)] := by
                simpa [imgLoop, hs, hp, hd, hm, h10] using hu
              rcases by simpa using hu' with h | h
              · exact Or.inl h
              · exact Or.inr ⟨img, src, List.mem_cons_self img rest, hs, hp,
                  (Bool.not_eq_true _).mp hd, h⟩
            · have hu' : u ∈ imgLoop rest (acc ++ [stripQuery (rewriteStr src)]) := by
                simpa [imgLoop, hs, hp, hd, hm, h10] using hu
              rcases step _ hu' with h | h
              · rcases by simpa using h with h' | h'
                · exact Or.inl h'
                · exact Or.inr ⟨img, src, List.mem_cons_self img rest, hs, hp,
                    (Bool.not_eq_true _).mp hd, h'⟩
              · exact Or.inr h
      · by_cases h10 : 10 ≤ acc.length
        · exact Or.inl (by simpa [imgLoop, hs, hp, h10] using hu)
        · exact step acc (by simpa [imgLoop, hs, hp, h10] using hu)

/-- C2 (amended): the image collector returns at most 10 entries with no
byte-identical duplicates; every entry contains no denylist substring and
no query string, and is the normalized form (size-class segment rewritten
to the wide segment, then everything from the first question mark
stripped) of the resolved source URL — itself containing "media/photo-"
and free of denylist substrings — of some image element of the document;
the result is exactly the first ten qualifying post-filter images in
document order (scanning stops at the cap). -/
theorem c2_images_amended (doc : Doc) :
    (extractImages doc).length ≤ 10
    ∧ (extractImages doc).Nodup
    ∧ (∀ u, u ∈ extractImages doc →
        denyAny u = false
        ∧ strContains u "?" = false
        ∧ ∃ img s, img ∈ findAllL isImg doc ∧ imgSrc img = some s
            ∧ strContains s photoKey = true ∧ denyAny s = false
            ∧ u = stripQuery (rewriteStr s))
    ∧ extractImages doc = (extractImagesAll doc).take 10 := by
  refine ⟨imgLoop_len _ [] (by simp), imgLoop_nodup _ [] List.nodup_nil,
    fun u hu => ?_, imgLoop_take _ [] (by simp)⟩
  rcases imgLoop_mem _ [] u hu with h | ⟨img, s, hmem, hsrc, hp, hd, heq⟩
  · simp at h
  · exact ⟨heq ▸ (entry_props s hd).1, heq ▸ (entry_props s hd).2,
      img, s, hmem, hsrc, hp, hd, heq⟩

/-- Witness for C2 (amended): a document with one qualifying thumbnail
URL; its collected entry is denylist-free and query-free. -/
theorem c2_images_amended_witness :
    denyAny "/media/photo-w/x.jpg" = false
    ∧ strContains "/media/photo-w/x.jpg" "?" = false :=
  ⟨((c2_images_amended
      [Node.elem "img" [("src", "/media/photo-s/x.jpg?w=50")] []]).2.2.1
      "/media/photo-w/x.jpg" (by decide)).1,
   ((c2_images_amended
      [Node.elem "img" [("src", "/media/photo-s/x.jpg?w=50")] []]).2.2.1
      "/media/photo-w/x.jpg" (by decide)).2.1⟩

/-- C2 (counterexample): an entry need not contain the "media/photo-"
segment: when the segment lies entirely inside the query string, the
filter accepts the source but query stripping then removes the segment
from the output entry. -/
theorem c2_images_counterexample :
    extractImages [Node.elem "img" [("src", "a?b/media/photo-s/c")] []] = ["a"]
    ∧ strContains "a" photoKey = false :=
  ⟨by decide, by decide⟩

end HotelScrape
